import Mathlib

/-!
Verification development for the TESDumpStats plugin walker
(`TESDumpStats.py`).  The development shallowly embeds the byte cursor,
the structural walker `dumpGRUPOrRecord`, the subrecord parser
`dumpSubRecords` and the statistics dictionaries they mutate.

Conventions of the embedding:
* a byte source is a `List Nat` of byte values; the file cursor is an
  explicit position `pos`;
* `file.read(n)` is a clamped byte-range extraction (it silently
  returns fewer bytes at
  the end of the source); `struct.unpack` of an `n`-byte field demands
  exactly `n` bytes and otherwise raises `struct.error`;
* exceptions are explicit: a result carries an `Option PyErr`, and the
  partially mutated dictionaries are returned alongside it, matching
  Python's in-place mutation with a propagating exception;
* `zlib.decompress` is an external library call, modelled by a
  parameter `inflate : Bytes → Option Bytes` (`none` is a raised
  `zlib.error`);
* Python's unbounded recursion and `while` loops are given explicit
  fuel; `PyErr.fuelOut` marks fuel exhaustion and never occurs when
  enough fuel is supplied.
-/

/-- A byte source or byte string: a list of byte values. -/
abbrev Bytes := List Nat

/-- The Python byte range `src[p : p+n]`: clamped at the end of the
list, never failing.  This is also `file.read(n)` at position `p`. -/
def bslice (src : Bytes) (p n : Nat) : Bytes := (src.drop p).take n

/-- Little-endian integer value of a byte string, as decoded by
`struct.unpack` formats `I` and `H` on a little-endian host. -/
def leNat : Bytes → Nat
  | [] => 0
  | b :: t => b + 256 * leNat t

/-- `struct.unpack` of an `n`-byte unsigned field at offset `p` of `src`
(through `file.read(n)`): `struct.error` (`none`) unless exactly `n`
bytes are available.  The signed readers share the same failure
condition; their decoded values are never used by the walker. -/
def readU (n : Nat) (src : Bytes) (p : Nat) : Option Nat :=
  if (bslice src p n).length = n then some (leNat (bslice src p n)) else none

/-- `bytes.decode('ascii')`: succeeds exactly when every byte is below
128, and then the character codes are the byte values unchanged. -/
def decodeAscii (bs : Bytes) : Option Bytes :=
  if bs.all (fun b => decide (b < 128)) then some bs else none

/-- The exceptions the Python walker can raise: `struct.error` from a
short fixed-width read, `UnicodeDecodeError` from `decode('ascii')`,
`zlib.error` from `zlib.decompress`, and the artificial fuel marker. -/
inductive PyErr where
  | structError
  | unicodeError
  | zlibError
  | fuelOut
deriving DecidableEq, Repr

/-- Per-subrecord-tag statistics: the `'sizes'` and `'counts'` lists of
the nested Python dict. -/
structure SubStats where
  sizes : List Nat
  counts : List Nat
deriving DecidableEq, Repr

/-- Per-record-tag statistics: the `'count'`, `'compressed'` and
`'sizes'` entries together with the per-subrecord-tag entries that the
Python code stores in the same dict (a subrecord tag has at most four
characters, so it can never collide with those three five-letter keys). -/
structure RecStats where
  count : Nat
  compressed : Nat
  sizes : List Nat
  subs : List (Bytes × SubStats)
deriving DecidableEq, Repr

/-- A record-stats dict whose keys are all absent: missing `'count'` and
`'compressed'` read as 0 via `dict.get`, missing lists are created empty
by `setdefault`. -/
def emptyRec : RecStats := { count := 0, compressed := 0, sizes := [], subs := [] }

/-- A fresh subrecord dict created by `setdefault(subType, dict())`. -/
def emptySub : SubStats := { sizes := [], counts := [] }

/-- The per-plugin `'records'` dict: an insertion-ordered association
list from record type tags to their statistics. -/
abbrev Stats := List (Bytes × RecStats)

/-- Python dict lookup on an insertion-ordered association list. -/
def alookup {α : Type} : List (Bytes × α) → Bytes → Option α
  | [], _ => none
  | (k2, v) :: t, k => if k2 = k then some v else alookup t k

/-- `dict.setdefault(k, d)` followed by in-place mutation of the stored
value: apply `f` to the value already present, or to the default `d`
(appending the new entry in insertion order). -/
def aupsert {α : Type} : List (Bytes × α) → Bytes → (α → α) → α → List (Bytes × α)
  | [], k, f, d => [(k, f d)]
  | (k2, v) :: t, k, f, d =>
    if k2 = k then (k2, f v) :: t else (k2, v) :: aupsert t k f d

/-- Store `v` under `k`, replacing the value present (or appending). -/
def aset {α : Type} (l : List (Bytes × α)) (k : Bytes) (v : α) : List (Bytes × α) :=
  aupsert l k (fun _ => v) v

/-- Append an observed size to the subrecord dict of tag `t` inside the
record dict (`s.setdefault('sizes',[]).append(subSize)` at line 351,
together with the `setdefault(subType, dict())` of line 348). -/
def addSubSize (subs : List (Bytes × SubStats)) (t : Bytes) (sz : Nat) :
    List (Bytes × SubStats) :=
  aupsert subs t (fun ss => { ss with sizes := ss.sizes ++ [sz] }) emptySub

/-- Append one occurrence-count sample to the subrecord dict of tag `t`
(`stats[subType].setdefault('counts',[]).append(...)` at line 353). -/
def addSubCount (subs : List (Bytes × SubStats)) (t : Bytes) (c : Nat) :
    List (Bytes × SubStats) :=
  aupsert subs t (fun ss => { ss with counts := ss.counts ++ [c] }) emptySub

/-- The group marker `b'GRUP'`. -/
def grupTag : Bytes := [71, 82, 85, 80]

/-- The extended-length subrecord escape tag `'XXXX'`. -/
def xxxxTag : Bytes := [88, 88, 88, 88]

/-- The `while` loop of `dumpSubRecords` (source lines 333-351).
`counts` is the loop-local per-record tally dict, `rs` the record-level
stats dict `stats` mutated in place, `pos` the offset into `data`.  The
loop runs while `pos < len(data) - 6` (in Python integers, which for
naturals is `pos + 6 < len(data)`); a tag is four bytes decoded as
ASCII; the `'XXXX'` escape form reads a 4-byte size, the real tag and
two discarded bytes; a declared size that would overrun the payload
breaks out silently, before any mutation for that subrecord. -/
def subLoop (data : Bytes) : Nat → List (Bytes × Nat) → RecStats → Nat →
    List (Bytes × Nat) × RecStats × Option PyErr
  | 0, counts, rs, _ => (counts, rs, some PyErr.fuelOut)
  | f + 1, counts, rs, pos =>
    if pos + 6 < data.length then
      match decodeAscii (bslice data pos 4) with
      | none => (counts, rs, some PyErr.unicodeError)
      | some t0 =>
        if t0 = xxxxTag then
          match readU 4 data (pos + 4) with
          | none => (counts, rs, some PyErr.structError)
          | some subSize =>
            match decodeAscii (bslice data (pos + 8) 4) with
            | none => (counts, rs, some PyErr.unicodeError)
            | some t1 =>
              if pos + 14 + subSize > data.length then (counts, rs, none)
              else
                subLoop data f (aupsert counts t1 (fun n => n + 1) 0)
                  { rs with subs := addSubSize rs.subs t1 subSize }
                  (pos + 14 + subSize)
        else
          match readU 2 data (pos + 4) with
          | none => (counts, rs, some PyErr.structError)
          | some subSize =>
            if pos + 6 + subSize > data.length then (counts, rs, none)
            else
              subLoop data f (aupsert counts t0 (fun n => n + 1) 0)
                { rs with subs := addSubSize rs.subs t0 subSize }
                (pos + 6 + subSize)
    else (counts, rs, none)

/-- The trailing `for` loop of `dumpSubRecords` (source lines 352-353):
one occurrence-count sample per distinct subrecord tag seen in this
record, in insertion order.  Every key of `counts` was inserted by the
loop above together with its subrecord dict, so the Python indexing
`stats[subType]` cannot fail; `aupsert` with a never-used default is
therefore equivalent. -/
def applyCounts (counts : List (Bytes × Nat)) (rs : RecStats) : RecStats :=
  counts.foldl (fun r p => { r with subs := addSubCount r.subs p.1 p.2 }) rs

/-- `dumpSubRecords(data, stats)` (source lines 329-353).  On an
exception, the mutations made so far to `rs` persist and the exception
propagates; the occurrence samples are then never appended.  The fuel
`data.length + 1` always suffices since each iteration advances `pos`
by at least 6. -/
def dumpSubRecords (data : Bytes) (rs : RecStats) : RecStats × Option PyErr :=
  match subLoop data (data.length + 1) [] rs 0 with
  | (counts, rs2, none) => (applyCounts counts rs2, none)
  | (_, rs2, some e) => (rs2, some e)

/-- The six fixed-width reads of a record header after the type tag
(source lines 305-310): dataSize, flags, id, revision, version and an
unknown word.  A short read raises `struct.error`; only dataSize and
flags are used afterwards. -/
def recHeader (src : Bytes) (pos : Nat) : Option (Nat × Nat) :=
  match readU 4 src (pos + 4), readU 4 src (pos + 8), readU 4 src (pos + 12),
        readU 4 src (pos + 16), readU 2 src (pos + 20), readU 2 src (pos + 22) with
  | some ds, some fl, some _, some _, some _, some _ => some (ds, fl)
  | _, _, _, _, _, _ => none

/-- The GRUP header reads after the marker (source lines 289-295): the
raw declared size, a plain 4-byte label read that cannot fail, the
signed group kind and four 16-bit words.  Returns the raw size; the
walker then uses `start + raw` as the child region end, which is
exactly the Python `ins.tell() + (raw - 24)` computed in signed
arithmetic. -/
def grupHeader (src : Bytes) (pos : Nat) : Option Nat :=
  match readU 4 src (pos + 4), readU 4 src (pos + 12), readU 2 src (pos + 16),
        readU 2 src (pos + 18), readU 2 src (pos + 20), readU 2 src (pos + 22) with
  | some raw, some _, some _, some _, some _, some _ => some raw
  | _, _, _, _, _, _ => none

/-- Common tail of the record branch: store the mutated record dict and
either seek to `seekPos` (success) or propagate the exception with the
cursor untouched. -/
def finishRecord (stats : Stats) (ty : Bytes) (pos seekPos : Nat) :
    RecStats × Option PyErr → Stats × Nat × Option PyErr
  | (s3, none) => (aset stats ty s3, seekPos, none)
  | (s3, some e) => (aset stats ty s3, pos, some e)

/-- `s = stats.setdefault(Type, dict())` at line 313: the record dict
for `ty`, present or fresh. -/
def baseOf (stats : Stats) (ty : Bytes) : RecStats :=
  (alookup stats ty).getD emptyRec

/-- Lines 314-315: bump the record count. -/
def bumpCount (rs : RecStats) : RecStats := { rs with count := rs.count + 1 }

/-- Lines 321-322: bump the compressed count. -/
def bumpCompressed (rs : RecStats) : RecStats :=
  { rs with compressed := rs.compressed + 1 }

/-- Line 323: append the observed payload length to the size list. -/
def addSizeSample (rs : RecStats) (n : Nat) : RecStats :=
  { rs with sizes := rs.sizes ++ [n] }

/-- The record branch of `dumpGRUPOrRecord` (source lines 303-326) after
the tag has been decoded and the header parsed.  `pos` is the record
start position; `bslice src (pos + 24) dataSize` is the payload read of
line 316, which silently yields fewer bytes near the end of the file.
The final `ins.seek(pos + dataSize + 24)` produces the returned
position.  On an exception the mutations made so far persist, the
exception propagates, and the seek never happens.  The deleted flag is
bit 0x20 = 32; the compressed flag is bit 0x00040000 = 262144; a
compressed record's first four payload bytes are its uncompressed-size
field (unpacked but unused, raising `struct.error` when fewer than four
payload bytes exist) and the rest is handed to `zlib.decompress`. -/
def processRecord (inflate : Bytes → Option Bytes) (src : Bytes) (pos : Nat)
    (ty : Bytes) (dataSize flags : Nat) (stats : Stats) :
    Stats × Nat × Option PyErr :=
  if flags &&& 32 = 0 then
    if flags &&& 262144 = 0 then
      finishRecord stats ty pos (pos + dataSize + 24)
        (dumpSubRecords (bslice src (pos + 24) dataSize)
          (addSizeSample (bumpCount (baseOf stats ty))
            (bslice src (pos + 24) dataSize).length))
    else
      if (bslice src (pos + 24) dataSize).length < 4 then
        (aset stats ty (bumpCount (baseOf stats ty)), pos, some PyErr.structError)
      else
        match inflate ((bslice src (pos + 24) dataSize).drop 4) with
        | none =>
          (aset stats ty (bumpCount (baseOf stats ty)), pos, some PyErr.zlibError)
        | some d2 =>
          finishRecord stats ty pos (pos + dataSize + 24)
            (dumpSubRecords d2
              (addSizeSample (bumpCompressed (bumpCount (baseOf stats ty))) d2.length))
  else (stats, pos + dataSize + 24, none)

/-- Fueled interpreter for `dumpGRUPOrRecord` (mode `false`, source
lines 281-326) and for its GRUP `while` loop over the child region
(mode `true`, source lines 301-302).  With fewer than 24 bytes before
the region end the remainder is padding: seek to the region end and
return.  A group whose child region `pos + raw` overruns the region end
is clamped the same way.  Fuel only bounds recursion depth and loop
length. -/
def walkAux (inflate : Bytes → Option Bytes) :
    Nat → Bool → Bytes → Nat → Stats → Nat → Stats × Nat × Option PyErr
  | 0, _, _, pos, stats, _ => (stats, pos, some PyErr.fuelOut)
  | f + 1, false, src, pos, stats, endP =>
    if pos + 24 > endP then (stats, endP, none)
    else
      let tag := bslice src pos 4
      if tag = grupTag then
        match grupHeader src pos with
        | none => (stats, pos, some PyErr.structError)
        | some raw =>
          if pos + raw > endP then (stats, endP, none)
          else walkAux inflate f true src (pos + 24) stats (pos + raw)
      else
        match decodeAscii tag with
        | none => (stats, pos, some PyErr.unicodeError)
        | some ty =>
          match recHeader src pos with
          | none => (stats, pos, some PyErr.structError)
          | some (ds, fl) => processRecord inflate src pos ty ds fl stats
  | f + 1, true, src, pos, stats, childEnd =>
    if pos < childEnd then
      match walkAux inflate f false src pos stats childEnd with
      | (s2, p2, none) => walkAux inflate f true src p2 s2 childEnd
      | (s2, p2, some e) => (s2, p2, some e)
    else (stats, pos, none)

/-- `dumpGRUPOrRecord(ins, stats, end)` (source lines 281-326). -/
def dumpGRUPOrRecord (inflate : Bytes → Option Bytes) (fuel : Nat) (src : Bytes)
    (pos : Nat) (stats : Stats) (endP : Nat) : Stats × Nat × Option PyErr :=
  walkAux inflate fuel false src pos stats endP

/-- The record-walking loop of `dumpPlugin` (source lines 188-189):
walk top-level GRUPs and records while the cursor is before the file
size.  Any exception aborts the loop and is caught at line 190, with
the mutated stats dict retained. -/
def dumpPluginWalk (inflate : Bytes → Option Bytes) :
    Nat → Bytes → Nat → Stats → Stats × Nat × Option PyErr
  | 0, _, pos, stats => (stats, pos, some PyErr.fuelOut)
  | f + 1, src, pos, stats =>
    if pos < src.length then
      match walkAux inflate f false src pos stats src.length with
      | (s2, p2, none) => dumpPluginWalk inflate f src p2 s2
      | (s2, p2, some e) => (s2, p2, some e)
    else (stats, pos, none)

/-- An always-failing inflater: `zlib.decompress` on invalid data. -/
def inflNone : Bytes → Option Bytes := fun _ => none

/-! ### Derived predicates and concrete byte sources -/

/-- Every subrecord tag present in `a`'s dict is still present in `b`'s:
subrecord-statistics entries are never removed. -/
def SubMono (a b : RecStats) : Prop :=
  ∀ u, (alookup a.subs u).isSome → (alookup b.subs u).isSome

/-- Every record tag present in `a` is still present in `b`, and its
subrecord entries are preserved as well: statistics entries are created
on first sight and never removed. -/
def StatsMono (a b : Stats) : Prop :=
  ∀ t rs, alookup a t = some rs →
    ∃ rs2, alookup b t = some rs2 ∧ SubMono rs rs2

/-- Every subrecord entry of `rs` has an occurrence-sample list of
length at most `n`. -/
def CntBound (rs : RecStats) (n : Nat) : Prop :=
  ∀ q ∈ rs.subs, (Prod.snd q).counts.length ≤ n

/-- The shape invariant of one per-record-tag statistics entry: size
samples match the count, at most every record was compressed, and no
subrecord tag has more occurrence samples than there were records. -/
def GoodRec (rs : RecStats) : Prop :=
  rs.sizes.length = rs.count ∧ rs.compressed ≤ rs.count ∧ CntBound rs rs.count

/-- The shape invariant of the whole statistics dict. -/
def GoodStats (st : Stats) : Prop := ∀ p ∈ st, GoodRec (Prod.snd p)

/-- A record `AAAA`, compressed flag set (0x00040000, little-endian
bytes [0,0,4,0]), declared data size 6: a 4-byte uncompressed-size
field and two bytes of invalid compressed data; followed by a plain
record `BBBB` with data size 0. -/
def c1src : Bytes :=
  [65, 65, 65, 65] ++ [6, 0, 0, 0] ++ [0, 0, 4, 0] ++ List.replicate 12 0 ++
  [1, 0, 0, 0, 9, 9] ++ [66, 66, 66, 66] ++ List.replicate 20 0

/-- A plain record `CCCC` with declared data size 2 and payload [5,5]. -/
def c2src : Bytes := [67, 67, 67, 67] ++ [2, 0, 0, 0] ++ List.replicate 16 0 ++ [5, 5]

/-- A record whose type-tag bytes are not ASCII. -/
def c3src : Bytes := [255, 255, 255, 255] ++ List.replicate 20 0

/-- A compressed record `AAAA` (data size 6: 4-byte uncompressed-size
field then compressed bytes [9,9]) whose inflation succeeds. -/
def c5src : Bytes :=
  [65, 65, 65, 65] ++ [6, 0, 0, 0] ++ [0, 0, 4, 0] ++ List.replicate 12 0 ++
  [1, 0, 0, 0, 9, 9]

/-- An inflater that knows the compressed payload of `c5src`: it
decompresses [9,9] to seven zero bytes. -/
def inflC5 : Bytes → Option Bytes :=
  fun b => if b = [9, 9] then some [0, 0, 0, 0, 0, 0, 0] else none

/-- A record `DDDD` with the deleted and compressed flags both set
(0x00040020, little-endian bytes [32,0,4,0]) and data size 3. -/
def c6src : Bytes :=
  [68, 68, 68, 68] ++ [3, 0, 0, 0] ++ [32, 0, 4, 0] ++ List.replicate 12 0 ++ [1, 2, 3]

/-- A GRUP whose declared raw size 1000 overruns its 24-byte region. -/
def c8src : Bytes := [71, 82, 85, 80] ++ [232, 3, 0, 0] ++ List.replicate 16 0

/-- A record `AAAA` declaring 100 data bytes of which only 6 exist. -/
def c9src : Bytes :=
  [65, 65, 65, 65] ++ [100, 0, 0, 0] ++ List.replicate 16 0 ++ [7, 7, 7, 7, 7, 7]

/-! ### Association-list lemmas -/

theorem alookup_mem {α : Type} {l : List (Bytes × α)} {k : Bytes} {v : α}
    (h : alookup l k = some v) : (k, v) ∈ l := by
  induction l with
  | nil => simp [alookup] at h
  | cons q t ih =>
    obtain ⟨k2, w⟩ := q
    by_cases hk : k2 = k
    · subst hk
      simp [alookup] at h
      simp [h]
    · simp only [alookup, if_neg hk] at h
      exact List.mem_cons_of_mem _ (ih h)

theorem aupsert_mem {α : Type} {l : List (Bytes × α)} {k : Bytes} {f : α → α}
    {d : α} {p : Bytes × α} (h : p ∈ aupsert l k f d) :
    p ∈ l ∨ p = (k, f ((alookup l k).getD d)) := by
  induction l with
  | nil =>
    simp only [aupsert, List.mem_singleton] at h
    right
    simpa [alookup] using h
  | cons q t ih =>
    obtain ⟨k2, w⟩ := q
    by_cases hk : k2 = k
    · subst hk
      simp only [aupsert, if_true, eq_self_iff_true, List.mem_cons] at h
      rcases h with h | h
      · right
        simp [alookup, h]
      · left
        exact List.mem_cons_of_mem _ h
    · simp only [aupsert, if_neg hk, List.mem_cons] at h
      rcases h with h | h
      · left
        simp [h]
      · rcases ih h with h2 | h2
        · left
          exact List.mem_cons_of_mem _ h2
        · right
          simpa [alookup, hk] using h2

theorem alookup_aupsert_self {α : Type} (l : List (Bytes × α)) (k : Bytes)
    (f : α → α) (d : α) :
    alookup (aupsert l k f d) k = some (f ((alookup l k).getD d)) := by
  induction l with
  | nil => simp [alookup, aupsert]
  | cons q t ih =>
    obtain ⟨k2, w⟩ := q
    by_cases hk : k2 = k
    · subst hk
      simp [alookup, aupsert]
    · simp [alookup, aupsert, hk, ih]

theorem alookup_aupsert_ne {α : Type} (l : List (Bytes × α)) {k t : Bytes}
    (f : α → α) (d : α) (h : t ≠ k) :
    alookup (aupsert l k f d) t = alookup l t := by
  have hk : k ≠ t := Ne.symm h
  induction l with
  | nil => simp [alookup, aupsert, hk]
  | cons q tl ih =>
    obtain ⟨k2, w⟩ := q
    by_cases h2 : k2 = k
    · subst h2
      simp [alookup, aupsert, hk]
    · by_cases h3 : k2 = t
      · subst h3
        simp [alookup, aupsert, h2]
      · simp [alookup, aupsert, h2, h3, ih]

theorem isSome_alookup_aupsert {α : Type} (l : List (Bytes × α)) (k t : Bytes)
    (f : α → α) (d : α) (h : (alookup l t).isSome) :
    (alookup (aupsert l k f d) t).isSome := by
  by_cases ht : t = k
  · subst ht
    rw [alookup_aupsert_self]
    rfl
  · rw [alookup_aupsert_ne l f d ht]
    exact h

theorem mem_map_fst_aupsert {α : Type} {l : List (Bytes × α)} {k x : Bytes}
    {f : α → α} {d : α} (h : x ∈ (aupsert l k f d).map Prod.fst) :
    x ∈ l.map Prod.fst ∨ x = k := by
  induction l with
  | nil =>
    right
    simpa [aupsert] using h
  | cons q t ih =>
    obtain ⟨k2, w⟩ := q
    by_cases hk : k2 = k
    · subst hk
      simp only [aupsert, if_true, eq_self_iff_true, List.map_cons, List.mem_cons] at h
      rcases h with h | h
      · right
        exact h
      · left
        simp only [List.map_cons, List.mem_cons]
        right
        exact h
    · simp only [aupsert, if_neg hk, List.map_cons, List.mem_cons] at h
      rcases h with h | h
      · left
        simp only [List.map_cons, List.mem_cons]
        left
        exact h
      · rcases ih h with h2 | h2
        · left
          simp only [List.map_cons, List.mem_cons]
          right
          exact h2
        · right
          exact h2

theorem nodup_map_fst_aupsert {α : Type} {l : List (Bytes × α)} (k : Bytes)
    (f : α → α) (d : α) (h : (l.map Prod.fst).Nodup) :
    ((aupsert l k f d).map Prod.fst).Nodup := by
  induction l with
  | nil => simp [aupsert]
  | cons q t ih =>
    obtain ⟨k2, w⟩ := q
    simp only [List.map_cons, List.nodup_cons] at h
    by_cases hk : k2 = k
    · subst hk
      simp only [aupsert, if_true, eq_self_iff_true, List.map_cons, List.nodup_cons]
      exact h
    · simp only [aupsert, if_neg hk, List.map_cons, List.nodup_cons]
      refine ⟨?_, ih h.2⟩
      intro hmem
      rcases mem_map_fst_aupsert hmem with h2 | h2
      · exact h.1 h2
      · exact hk h2

/-! ### Byte-cursor lemmas -/

theorem bslice_length (src : Bytes) (p n : Nat) :
    (bslice src p n).length = min n (src.length - p) := by
  simp [bslice]

theorem readU_eq (n : Nat) (src : Bytes) (p : Nat) :
    readU n src p =
      if n ≤ src.length - p then some (leNat (bslice src p n)) else none := by
  unfold readU
  by_cases h : n ≤ src.length - p
  · rw [if_pos h, if_pos]
    rw [bslice_length, Nat.min_def]
    split <;> omega
  · rw [if_neg h, if_neg]
    rw [bslice_length, Nat.min_def]
    split <;> omega

theorem readU_of_le {n : Nat} {src : Bytes} {p : Nat} (h : p + n ≤ src.length) :
    readU n src p = some (leNat (bslice src p n)) := by
  rw [readU_eq, if_pos (by omega)]

/-! ### Monotonicity and invariant preservation -/

theorem subMono_refl (a : RecStats) : SubMono a a := fun _ h => h

theorem subMono_trans {a b c : RecStats} (h1 : SubMono a b) (h2 : SubMono b c) :
    SubMono a c := fun u hu => h2 u (h1 u hu)

theorem statsMono_refl (a : Stats) : StatsMono a a :=
  fun _ rs h => ⟨rs, h, subMono_refl rs⟩

theorem statsMono_trans {a b c : Stats} (h1 : StatsMono a b) (h2 : StatsMono b c) :
    StatsMono a c := by
  intro t rs h
  obtain ⟨rs2, h2a, h2b⟩ := h1 t rs h
  obtain ⟨rs3, h3a, h3b⟩ := h2 t rs2 h2a
  exact ⟨rs3, h3a, subMono_trans h2b h3b⟩

theorem cntBound_addSubSize {rs : RecStats} {n : Nat} (t : Bytes) (sz : Nat)
    (h : CntBound rs n) :
    CntBound { rs with subs := addSubSize rs.subs t sz } n := by
  intro q hq
  have hq2 : q ∈ aupsert rs.subs t
      (fun ss => { ss with sizes := ss.sizes ++ [sz] }) emptySub := hq
  rcases aupsert_mem hq2 with h2 | h2
  · exact h q h2
  · subst h2
    cases hv : alookup rs.subs t with
    | none => simp [hv, emptySub]
    | some v =>
      have hm := h (t, v) (alookup_mem hv)
      simpa [hv] using hm

theorem subMono_addSubSize (rs : RecStats) (t : Bytes) (sz : Nat) :
    SubMono rs { rs with subs := addSubSize rs.subs t sz } := by
  intro u hu
  exact isSome_alookup_aupsert rs.subs t u _ emptySub hu

theorem subLoop_spec (data : Bytes) :
    ∀ (f : Nat) (counts : List (Bytes × Nat)) (rs : RecStats) (pos : Nat),
      (subLoop data f counts rs pos).2.1.count = rs.count ∧
      (subLoop data f counts rs pos).2.1.compressed = rs.compressed ∧
      (subLoop data f counts rs pos).2.1.sizes = rs.sizes ∧
      ((counts.map Prod.fst).Nodup →
        (((subLoop data f counts rs pos).1).map Prod.fst).Nodup) ∧
      (∀ n, CntBound rs n → CntBound (subLoop data f counts rs pos).2.1 n) ∧
      SubMono rs (subLoop data f counts rs pos).2.1 := by
  intro f
  induction f with
  | zero =>
    intro counts rs pos
    exact ⟨rfl, rfl, rfl, fun h => h, fun _ h => h, subMono_refl rs⟩
  | succ f ih =>
    intro counts rs pos
    by_cases hg : pos + 6 < data.length
    · cases hdec : decodeAscii (bslice data pos 4) with
      | none =>
        have he : subLoop data (f + 1) counts rs pos =
            (counts, rs, some PyErr.unicodeError) := by
          simp [subLoop, hg, hdec]
        rw [he]
        exact ⟨rfl, rfl, rfl, fun h => h, fun _ h => h, subMono_refl rs⟩
      | some t0 =>
        by_cases hx : t0 = xxxxTag
        · cases hr4 : readU 4 data (pos + 4) with
          | none =>
            have he : subLoop data (f + 1) counts rs pos =
                (counts, rs, some PyErr.structError) := by
              simp [subLoop, hg, hdec, hx, hr4]
            rw [he]
            exact ⟨rfl, rfl, rfl, fun h => h, fun _ h => h, subMono_refl rs⟩
          | some subSize =>
            cases hdec2 : decodeAscii (bslice data (pos + 8) 4) with
            | none =>
              have he : subLoop data (f + 1) counts rs pos =
                  (counts, rs, some PyErr.unicodeError) := by
                simp [subLoop, hg, hdec, hx, hr4, hdec2]
              rw [he]
              exact ⟨rfl, rfl, rfl, fun h => h, fun _ h => h, subMono_refl rs⟩
            | some t1 =>
              by_cases hov : pos + 14 + subSize > data.length
              · have he : subLoop data (f + 1) counts rs pos =
                    (counts, rs, none) := by
                  simp [subLoop, hg, hdec, hx, hr4, hdec2, hov]
                rw [he]
                exact ⟨rfl, rfl, rfl, fun h => h, fun _ h => h, subMono_refl rs⟩
              · have he : subLoop data (f + 1) counts rs pos =
                    subLoop data f (aupsert counts t1 (fun n => n + 1) 0)
                      { rs with subs := addSubSize rs.subs t1 subSize }
                      (pos + 14 + subSize) := by
                  simp [subLoop, hg, hdec, hx, hr4, hdec2, hov]
                rw [he]
                obtain ⟨e1, e2, e3, hnd, hcnt, hmono⟩ :=
                  ih (aupsert counts t1 (fun n => n + 1) 0)
                    { rs with subs := addSubSize rs.subs t1 subSize }
                    (pos + 14 + subSize)
                refine ⟨by rw [e1], by rw [e2], by rw [e3], ?_, ?_, ?_⟩
                · intro h
                  exact hnd (nodup_map_fst_aupsert t1 _ 0 h)
                · intro n h
                  exact hcnt n (cntBound_addSubSize t1 subSize h)
                · exact subMono_trans (subMono_addSubSize rs t1 subSize) hmono
        · cases hr2 : readU 2 data (pos + 4) with
          | none =>
            have he : subLoop data (f + 1) counts rs pos =
                (counts, rs, some PyErr.structError) := by
              simp [subLoop, hg, hdec, hx, hr2]
            rw [he]
            exact ⟨rfl, rfl, rfl, fun h => h, fun _ h => h, subMono_refl rs⟩
          | some subSize =>
            by_cases hov : pos + 6 + subSize > data.length
            · have he : subLoop data (f + 1) counts rs pos =
                  (counts, rs, none) := by
                simp [subLoop, hg, hdec, hx, hr2, hov]
              rw [he]
              exact ⟨rfl, rfl, rfl, fun h => h, fun _ h => h, subMono_refl rs⟩
            · have he : subLoop data (f + 1) counts rs pos =
                  subLoop data f (aupsert counts t0 (fun n => n + 1) 0)
                    { rs with subs := addSubSize rs.subs t0 subSize }
                    (pos + 6 + subSize) := by
                simp [subLoop, hg, hdec, hx, hr2, hov]
              rw [he]
              obtain ⟨e1, e2, e3, hnd, hcnt, hmono⟩ :=
                ih (aupsert counts t0 (fun n => n + 1) 0)
                  { rs with subs := addSubSize rs.subs t0 subSize }
                  (pos + 6 + subSize)
              refine ⟨by rw [e1], by rw [e2], by rw [e3], ?_, ?_, ?_⟩
              · intro h
                exact hnd (nodup_map_fst_aupsert t0 _ 0 h)
              · intro n h
                exact hcnt n (cntBound_addSubSize t0 subSize h)
              · exact subMono_trans (subMono_addSubSize rs t0 subSize) hmono
    · have he : subLoop data (f + 1) counts rs pos = (counts, rs, none) := by
        simp [subLoop, hg]
      rw [he]
      exact ⟨rfl, rfl, rfl, fun h => h, fun _ h => h, subMono_refl rs⟩

theorem applyCounts_cons (p : Bytes × Nat) (t : List (Bytes × Nat)) (rs : RecStats) :
    applyCounts (p :: t) rs =
      applyCounts t { rs with subs := addSubCount rs.subs p.1 p.2 } := rfl

theorem applyCounts_fields (counts : List (Bytes × Nat)) :
    ∀ rs : RecStats,
      (applyCounts counts rs).count = rs.count ∧
      (applyCounts counts rs).compressed = rs.compressed ∧
      (applyCounts counts rs).sizes = rs.sizes := by
  induction counts with
  | nil => intro rs; exact ⟨rfl, rfl, rfl⟩
  | cons p t ih =>
    intro rs
    rw [applyCounts_cons]
    obtain ⟨e1, e2, e3⟩ := ih { rs with subs := addSubCount rs.subs p.1 p.2 }
    exact ⟨by rw [e1], by rw [e2], by rw [e3]⟩

theorem subMono_addSubCount (rs : RecStats) (t : Bytes) (c : Nat) :
    SubMono rs { rs with subs := addSubCount rs.subs t c } := by
  intro u hu
  exact isSome_alookup_aupsert rs.subs t u _ emptySub hu

theorem applyCounts_subMono (counts : List (Bytes × Nat)) :
    ∀ rs : RecStats, SubMono rs (applyCounts counts rs) := by
  induction counts with
  | nil => intro rs; exact subMono_refl rs
  | cons p t ih =>
    intro rs
    rw [applyCounts_cons]
    exact subMono_trans (subMono_addSubCount rs p.1 p.2) (ih _)

theorem applyCounts_cntBound (n : Nat) (counts : List (Bytes × Nat)) :
    ∀ rs : RecStats, (counts.map Prod.fst).Nodup →
      (∀ q ∈ rs.subs, (Prod.snd q).counts.length ≤ n + 1 ∧
        (Prod.fst q ∈ counts.map Prod.fst → (Prod.snd q).counts.length ≤ n)) →
      CntBound (applyCounts counts rs) (n + 1) := by
  induction counts with
  | nil =>
    intro rs _ h q hq
    exact (h q hq).1
  | cons p t ih =>
    intro rs hnd h
    rw [applyCounts_cons]
    simp only [List.map_cons, List.nodup_cons] at hnd
    apply ih
    · exact hnd.2
    · intro q hq
      have hq2 : q ∈ aupsert rs.subs p.1
          (fun ss => { ss with counts := ss.counts ++ [p.2] }) emptySub := hq
      rcases aupsert_mem hq2 with h2 | h2
      · obtain ⟨b1, b2⟩ := h q h2
        refine ⟨b1, fun hm => b2 ?_⟩
        simp only [List.map_cons, List.mem_cons]
        right
        exact hm
      · subst h2
        constructor
        · cases hv : alookup rs.subs p.1 with
          | none => simp [hv, emptySub]
          | some v =>
            have hb : v.counts.length ≤ n := (h (p.1, v) (alookup_mem hv)).2 (by simp)
            simp only [hv, Option.getD_some]
            simpa using Nat.succ_le_succ hb
        · intro hm
          exact absurd hm hnd.1

theorem cntBound_le {rs : RecStats} {m n : Nat} (h : CntBound rs m)
    (hmn : m ≤ n) : CntBound rs n :=
  fun q hq => Nat.le_trans (h q hq) hmn

theorem dumpSubRecords_spec (data : Bytes) (rs : RecStats) :
    (dumpSubRecords data rs).1.count = rs.count ∧
    (dumpSubRecords data rs).1.compressed = rs.compressed ∧
    (dumpSubRecords data rs).1.sizes = rs.sizes ∧
    (∀ n, CntBound rs n → CntBound (dumpSubRecords data rs).1 (n + 1)) ∧
    SubMono rs (dumpSubRecords data rs).1 := by
  obtain ⟨e1, e2, e3, hnd, hcnt, hmono⟩ := subLoop_spec data (data.length + 1) [] rs 0
  unfold dumpSubRecords
  rcases hres : subLoop data (data.length + 1) [] rs 0 with ⟨counts, rs2, e⟩
  rw [hres] at e1 e2 e3 hnd hcnt hmono
  cases e with
  | none =>
    obtain ⟨a1, a2, a3⟩ := applyCounts_fields counts rs2
    refine ⟨by rw [a1]; exact e1, by rw [a2]; exact e2, by rw [a3]; exact e3, ?_, ?_⟩
    · intro n h
      apply applyCounts_cntBound n counts rs2 (hnd (by simp))
      intro q hq
      have hb : (Prod.snd q).counts.length ≤ n := hcnt n h q hq
      exact ⟨Nat.le_succ_of_le hb, fun _ => hb⟩
    · exact subMono_trans hmono (applyCounts_subMono counts rs2)
  | some err =>
    exact ⟨e1, e2, e3, fun n h => cntBound_le (hcnt n h) (Nat.le_succ n), hmono⟩

theorem finishRecord_fst (stats : Stats) (ty : Bytes) (pos sp : Nat)
    (r : RecStats × Option PyErr) :
    (finishRecord stats ty pos sp r).1 = aset stats ty r.1 := by
  rcases r with ⟨s3, e⟩
  cases e <;> rfl

theorem finishRecord_err (stats : Stats) (ty : Bytes) (pos sp : Nat)
    (r : RecStats × Option PyErr) :
    (finishRecord stats ty pos sp r).2.2 = r.2 := by
  rcases r with ⟨s3, e⟩
  cases e <;> rfl

theorem finishRecord_seek (stats : Stats) (ty : Bytes) (pos sp : Nat)
    (r : RecStats × Option PyErr) (h : r.2 = none) :
    (finishRecord stats ty pos sp r).2.1 = sp := by
  rcases r with ⟨s3, e⟩
  cases e with
  | none => rfl
  | some err => exact absurd h (by simp)

theorem subMono_of_subs_eq {a b : RecStats} (h : a.subs = b.subs) : SubMono a b := by
  intro u hu
  rw [← h]
  exact hu

theorem statsMono_aset (stats : Stats) (ty : Bytes) (v : RecStats)
    (h : ∀ rs, alookup stats ty = some rs → SubMono rs v) :
    StatsMono stats (aset stats ty v) := by
  intro t rs hrs
  by_cases ht : t = ty
  · subst ht
    refine ⟨v, ?_, h rs hrs⟩
    unfold aset
    rw [alookup_aupsert_self]
  · refine ⟨rs, ?_, subMono_refl rs⟩
    unfold aset
    rw [alookup_aupsert_ne stats _ _ ht]
    exact hrs

theorem goodRec_emptyRec : GoodRec emptyRec := by
  refine ⟨rfl, Nat.le_refl 0, ?_⟩
  intro q hq
  simp [emptyRec] at hq

theorem goodRec_baseOf (stats : Stats) (ty : Bytes) (h : GoodStats stats) :
    GoodRec (baseOf stats ty) := by
  unfold baseOf
  cases hv : alookup stats ty with
  | none => exact goodRec_emptyRec
  | some v => simpa using h (ty, v) (alookup_mem hv)

theorem goodStats_aset (stats : Stats) (ty : Bytes) (v : RecStats)
    (h : GoodStats stats) (hv : GoodRec v) : GoodStats (aset stats ty v) := by
  intro p hp
  have hp2 : p ∈ aupsert stats ty (fun _ => v) v := hp
  rcases aupsert_mem hp2 with h2 | h2
  · exact h p h2
  · rw [h2]
    exact hv

theorem goodRec_dump_plain (b : RecStats) (hb : GoodRec b) (data : Bytes) (L : Nat) :
    GoodRec (dumpSubRecords data (addSizeSample (bumpCount b) L)).1 := by
  obtain ⟨e1, e2, e3, hcnt, _⟩ :=
    dumpSubRecords_spec data (addSizeSample (bumpCount b) L)
  refine ⟨?_, ?_, ?_⟩
  · rw [e1, e3]
    show (b.sizes ++ [L]).length = b.count + 1
    simp [hb.1]
  · rw [e1, e2]
    show b.compressed ≤ b.count + 1
    exact Nat.le_succ_of_le hb.2.1
  · rw [e1]
    exact hcnt b.count (fun q hq => hb.2.2 q hq)

theorem goodRec_dump_comp (b : RecStats) (hb : GoodRec b) (data : Bytes) (L : Nat) :
    GoodRec (dumpSubRecords data (addSizeSample (bumpCompressed (bumpCount b)) L)).1 := by
  obtain ⟨e1, e2, e3, hcnt, _⟩ :=
    dumpSubRecords_spec data (addSizeSample (bumpCompressed (bumpCount b)) L)
  refine ⟨?_, ?_, ?_⟩
  · rw [e1, e3]
    show (b.sizes ++ [L]).length = b.count + 1
    simp [hb.1]
  · rw [e1, e2]
    show b.compressed + 1 ≤ b.count + 1
    exact Nat.succ_le_succ hb.2.1
  · rw [e1]
    exact hcnt b.count (fun q hq => hb.2.2 q hq)

theorem processRecord_mono (inflate : Bytes → Option Bytes) (src : Bytes)
    (pos : Nat) (ty : Bytes) (ds fl : Nat) (stats : Stats) :
    StatsMono stats (processRecord inflate src pos ty ds fl stats).1 := by
  unfold processRecord
  by_cases h32 : fl &&& 32 = 0
  · rw [if_pos h32]
    by_cases hcz : fl &&& 262144 = 0
    · rw [if_pos hcz, finishRecord_fst]
      apply statsMono_aset
      intro rs hrs
      have hbase : baseOf stats ty = rs := by simp [baseOf, hrs]
      rw [hbase]
      exact subMono_trans (subMono_of_subs_eq rfl)
        (dumpSubRecords_spec _ (addSizeSample (bumpCount rs) _)).2.2.2.2
    · rw [if_neg hcz]
      by_cases hlen : (bslice src (pos + 24) ds).length < 4
      · rw [if_pos hlen]
        apply statsMono_aset
        intro rs hrs
        have hbase : baseOf stats ty = rs := by simp [baseOf, hrs]
        rw [hbase]
        exact subMono_of_subs_eq rfl
      · rw [if_neg hlen]
        cases hi : inflate ((bslice src (pos + 24) ds).drop 4) with
        | none =>
          simp only [hi]
          apply statsMono_aset
          intro rs hrs
          have hbase : baseOf stats ty = rs := by simp [baseOf, hrs]
          rw [hbase]
          exact subMono_of_subs_eq rfl
        | some d2 =>
          simp only [hi]
          rw [finishRecord_fst]
          apply statsMono_aset
          intro rs hrs
          have hbase : baseOf stats ty = rs := by simp [baseOf, hrs]
          rw [hbase]
          exact subMono_trans (subMono_of_subs_eq rfl)
            (dumpSubRecords_spec _
              (addSizeSample (bumpCompressed (bumpCount rs)) _)).2.2.2.2
  · rw [if_neg h32]
    exact statsMono_refl stats

theorem processRecord_good (inflate : Bytes → Option Bytes) (src : Bytes)
    (pos : Nat) (ty : Bytes) (ds fl : Nat) (stats : Stats)
    (h : GoodStats stats)
    (hs : (processRecord inflate src pos ty ds fl stats).2.2 = none) :
    GoodStats (processRecord inflate src pos ty ds fl stats).1 := by
  unfold processRecord at hs ⊢
  by_cases h32 : fl &&& 32 = 0
  · rw [if_pos h32] at hs ⊢
    by_cases hcz : fl &&& 262144 = 0
    · rw [if_pos hcz] at hs ⊢
      rw [finishRecord_fst]
      exact goodStats_aset _ _ _ h
        (goodRec_dump_plain _ (goodRec_baseOf stats ty h) _ _)
    · rw [if_neg hcz] at hs ⊢
      by_cases hlen : (bslice src (pos + 24) ds).length < 4
      · rw [if_pos hlen] at hs
        exact absurd hs (by simp)
      · rw [if_neg hlen] at hs ⊢
        cases hi : inflate ((bslice src (pos + 24) ds).drop 4) with
        | none =>
          simp only [hi] at hs
          exact absurd hs (by simp)
        | some d2 =>
          simp only [hi] at hs ⊢
          rw [finishRecord_fst]
          exact goodStats_aset _ _ _ h
            (goodRec_dump_comp _ (goodRec_baseOf stats ty h) _ _)
  · rw [if_neg h32] at hs ⊢
    exact h

theorem processRecord_seek (inflate : Bytes → Option Bytes) (src : Bytes)
    (pos : Nat) (ty : Bytes) (ds fl : Nat) (stats : Stats)
    (hs : (processRecord inflate src pos ty ds fl stats).2.2 = none) :
    (processRecord inflate src pos ty ds fl stats).2.1 = pos + ds + 24 := by
  unfold processRecord at hs ⊢
  by_cases h32 : fl &&& 32 = 0
  · rw [if_pos h32] at hs ⊢
    by_cases hcz : fl &&& 262144 = 0
    · rw [if_pos hcz] at hs ⊢
      rw [finishRecord_err] at hs
      exact finishRecord_seek _ _ _ _ _ hs
    · rw [if_neg hcz] at hs ⊢
      by_cases hlen : (bslice src (pos + 24) ds).length < 4
      · rw [if_pos hlen] at hs
        exact absurd hs (by simp)
      · rw [if_neg hlen] at hs ⊢
        cases hi : inflate ((bslice src (pos + 24) ds).drop 4) with
        | none =>
          simp only [hi] at hs
          exact absurd hs (by simp)
        | some d2 =>
          simp only [hi] at hs ⊢
          rw [finishRecord_err] at hs
          exact finishRecord_seek _ _ _ _ _ hs
  · rw [if_neg h32]

theorem walkAux_spec (inflate : Bytes → Option Bytes) :
    ∀ (f : Nat) (mode : Bool) (src : Bytes) (pos : Nat) (stats : Stats) (endP : Nat),
      StatsMono stats (walkAux inflate f mode src pos stats endP).1 ∧
      ((walkAux inflate f mode src pos stats endP).2.2 = none →
        GoodStats stats → GoodStats (walkAux inflate f mode src pos stats endP).1) := by
  intro f
  induction f with
  | zero =>
    intro mode src pos stats endP
    exact ⟨statsMono_refl stats, fun _ h => h⟩
  | succ f ih =>
    intro mode src pos stats endP
    cases mode with
    | true =>
      by_cases hlt : pos < endP
      · have he : walkAux inflate (f + 1) true src pos stats endP =
            (match walkAux inflate f false src pos stats endP with
             | (s2, p2, none) => walkAux inflate f true src p2 s2 endP
             | (s2, p2, some e) => (s2, p2, some e)) := by
          simp [walkAux, hlt]
        rw [he]
        rcases hres : walkAux inflate f false src pos stats endP with ⟨s2, p2, e⟩
        obtain ⟨m1, g1⟩ := ih false src pos stats endP
        rw [hres] at m1 g1
        cases e with
        | none =>
          obtain ⟨m2, g2⟩ := ih true src p2 s2 endP
          exact ⟨statsMono_trans m1 m2, fun hn hg => g2 hn (g1 rfl hg)⟩
        | some err =>
          exact ⟨m1, fun hn _ => absurd hn (by simp)⟩
      · have he : walkAux inflate (f + 1) true src pos stats endP =
            (stats, pos, none) := by
          simp [walkAux, hlt]
        rw [he]
        exact ⟨statsMono_refl stats, fun _ h => h⟩
    | false =>
      by_cases hp : pos + 24 > endP
      · have he : walkAux inflate (f + 1) false src pos stats endP =
            (stats, endP, none) := by
          simp [walkAux, hp]
        rw [he]
        exact ⟨statsMono_refl stats, fun _ h => h⟩
      · by_cases hg : bslice src pos 4 = grupTag
        · cases hgh : grupHeader src pos with
          | none =>
            have he : walkAux inflate (f + 1) false src pos stats endP =
                (stats, pos, some PyErr.structError) := by
              simp [walkAux, hp, hg, hgh]
            rw [he]
            exact ⟨statsMono_refl stats, fun _ h => h⟩
          | some raw =>
            by_cases hov : pos + raw > endP
            · have he : walkAux inflate (f + 1) false src pos stats endP =
                  (stats, endP, none) := by
                simp [walkAux, hp, hg, hgh, hov]
              rw [he]
              exact ⟨statsMono_refl stats, fun _ h => h⟩
            · have he : walkAux inflate (f + 1) false src pos stats endP =
                  walkAux inflate f true src (pos + 24) stats (pos + raw) := by
                simp [walkAux, hp, hg, hgh, hov]
              rw [he]
              exact ih true src (pos + 24) stats (pos + raw)
        · cases hdec : decodeAscii (bslice src pos 4) with
          | none =>
            have he : walkAux inflate (f + 1) false src pos stats endP =
                (stats, pos, some PyErr.unicodeError) := by
              simp [walkAux, hp, hg, hdec]
            rw [he]
            exact ⟨statsMono_refl stats, fun _ h => h⟩
          | some ty =>
            cases hrh : recHeader src pos with
            | none =>
              have he : walkAux inflate (f + 1) false src pos stats endP =
                  (stats, pos, some PyErr.structError) := by
                simp [walkAux, hp, hg, hdec, hrh]
              rw [he]
              exact ⟨statsMono_refl stats, fun _ h => h⟩
            | some dsfl =>
              rcases dsfl with ⟨ds, fl⟩
              have he : walkAux inflate (f + 1) false src pos stats endP =
                  processRecord inflate src pos ty ds fl stats := by
                simp [walkAux, hp, hg, hdec, hrh]
              rw [he]
              exact ⟨processRecord_mono inflate src pos ty ds fl stats,
                fun hn h => processRecord_good inflate src pos ty ds fl stats h hn⟩

theorem dumpPluginWalk_spec (inflate : Bytes → Option Bytes) :
    ∀ (f : Nat) (src : Bytes) (pos : Nat) (stats : Stats),
      StatsMono stats (dumpPluginWalk inflate f src pos stats).1 ∧
      ((dumpPluginWalk inflate f src pos stats).2.2 = none →
        GoodStats stats → GoodStats (dumpPluginWalk inflate f src pos stats).1) := by
  intro f
  induction f with
  | zero =>
    intro src pos stats
    exact ⟨statsMono_refl stats, fun _ h => h⟩
  | succ f ih =>
    intro src pos stats
    by_cases hlt : pos < src.length
    · have he : dumpPluginWalk inflate (f + 1) src pos stats =
          (match walkAux inflate f false src pos stats src.length with
           | (s2, p2, none) => dumpPluginWalk inflate f src p2 s2
           | (s2, p2, some e) => (s2, p2, some e)) := by
        simp [dumpPluginWalk, hlt]
      rw [he]
      rcases hres : walkAux inflate f false src pos stats src.length with ⟨s2, p2, e⟩
      obtain ⟨m1, g1⟩ := walkAux_spec inflate f false src pos stats src.length
      rw [hres] at m1 g1
      cases e with
      | none =>
        obtain ⟨m2, g2⟩ := ih src p2 s2
        exact ⟨statsMono_trans m1 m2, fun hn hg => g2 hn (g1 rfl hg)⟩
      | some err =>
        exact ⟨m1, fun hn _ => absurd hn (by simp)⟩
    · have he : dumpPluginWalk inflate (f + 1) src pos stats = (stats, pos, none) := by
        simp [dumpPluginWalk, hlt]
      rw [he]
      exact ⟨statsMono_refl stats, fun _ h => h⟩

/-! ### Helpers for symbolic tag computations -/

theorem eq_cons_of_len4 (t : Bytes) (h : t.length = 4) :
    ∃ a b c d, t = [a, b, c, d] := by
  rcases t with _ | ⟨a, t⟩
  · simp at h
  rcases t with _ | ⟨b, t⟩
  · simp at h
  rcases t with _ | ⟨c, t⟩
  · simp at h
  rcases t with _ | ⟨d, t⟩
  · simp at h
  rcases t with _ | ⟨e, t⟩
  · exact ⟨a, b, c, d, rfl⟩
  · simp at h

theorem eq_cons_of_len2 (t : Bytes) (h : t.length = 2) :
    ∃ a b, t = [a, b] := by
  rcases t with _ | ⟨a, t⟩
  · simp at h
  rcases t with _ | ⟨b, t⟩
  · simp at h
  rcases t with _ | ⟨c, t⟩
  · exact ⟨a, b, rfl⟩
  · simp at h

theorem subLoop_stop (data : Bytes) (f : Nat) (counts : List (Bytes × Nat))
    (rs : RecStats) (pos : Nat) (h : ¬ pos + 6 < data.length) :
    subLoop data (f + 1) counts rs pos = (counts, rs, none) := by
  simp [subLoop, h]

set_option maxHeartbeats 1600000 in
theorem dumpSubRecords_one_normal (t e2 body : Bytes) (rs : RecStats)
    (ht4 : t.length = 4) (he2 : e2.length = 2)
    (hasc : decodeAscii t = some t) (hne : t ≠ xxxxTag)
    (hlen : body.length = leNat e2) (hpos : 0 < body.length)
    (hsubs : rs.subs = []) :
    dumpSubRecords (t ++ (e2 ++ body)) rs =
      ({ rs with subs := [(t, { sizes := [leNat e2], counts := [1] })] }, none) := by
  obtain ⟨a, b, c, d, rfl⟩ := eq_cons_of_len4 t ht4
  obtain ⟨x, y, rfl⟩ := eq_cons_of_len2 e2 he2
  show dumpSubRecords (a :: b :: c :: d :: x :: y :: body) rs = _
  have hdl : (a :: b :: c :: d :: x :: y :: body).length = 6 + body.length := by
    simp
    omega
  have hguard : 0 + 6 < (a :: b :: c :: d :: x :: y :: body).length := by
    rw [hdl]
    omega
  have hbr : ¬ 0 + 6 + leNat [x, y] > (a :: b :: c :: d :: x :: y :: body).length := by
    rw [hdl]
    omega
  have hb1 : bslice (a :: b :: c :: d :: x :: y :: body) 0 4 = [a, b, c, d] := rfl
  have hr2 : readU 2 (a :: b :: c :: d :: x :: y :: body) (0 + 4) =
      some (leNat [x, y]) := rfl
  have h1 : subLoop (a :: b :: c :: d :: x :: y :: body) (6 + body.length + 1) [] rs 0 =
      subLoop (a :: b :: c :: d :: x :: y :: body) (6 + body.length)
        [([a, b, c, d], 1)]
        { rs with subs := addSubSize rs.subs [a, b, c, d] (leNat [x, y]) }
        (0 + 6 + leNat [x, y]) := by
    simp [subLoop, hguard, hb1, hasc, hne, hr2, hbr]
    have hf1 : ¬ List.length body + 1 + 1 + 1 + 1 + 1 + 1 < 6 + leNat [x, y] := by
      omega
    rw [if_pos hpos, if_neg hf1]
    rfl
  have h2 : subLoop (a :: b :: c :: d :: x :: y :: body) (6 + body.length)
      [([a, b, c, d], 1)]
      { rs with subs := addSubSize rs.subs [a, b, c, d] (leNat [x, y]) }
      (0 + 6 + leNat [x, y]) =
      ([([a, b, c, d], 1)],
        { rs with subs := addSubSize rs.subs [a, b, c, d] (leNat [x, y]) }, none) := by
    have hgg : 6 + body.length = 5 + body.length + 1 := by omega
    rw [hgg]
    apply subLoop_stop
    rw [hdl]
    omega
  unfold dumpSubRecords
  rw [hdl, h1, h2, hsubs]
  have hstep : addSubCount [([a, b, c, d], { sizes := [leNat [x, y]], counts := [] })] [a, b, c, d] 1 = [([a, b, c, d], { sizes := [leNat [x, y]], counts := [1] })] := by
    unfold addSubCount aupsert
    rw [if_pos rfl]
    rfl
  have hac : applyCounts [([a, b, c, d], 1)] { rs with subs := addSubSize [] [a, b, c, d] (leNat [x, y]) } = { rs with subs := [([a, b, c, d], { sizes := [leNat [x, y]], counts := [1] })] } := by
    show { rs with subs := addSubCount [([a, b, c, d], { sizes := [leNat [x, y]], counts := [] })] [a, b, c, d] 1 } = _
    rw [hstep]
  exact congrArg (fun z => (z, none)) hac

set_option maxHeartbeats 1600000 in
theorem dumpSubRecords_one_escape (e4 realT : Bytes) (d1 d2 : Nat) (body : Bytes)
    (rs : RecStats)
    (he4 : e4.length = 4) (ht4 : realT.length = 4)
    (hasc : decodeAscii realT = some realT)
    (hlen : body.length = leNat e4)
    (hsubs : rs.subs = []) :
    dumpSubRecords (xxxxTag ++ (e4 ++ (realT ++ (d1 :: d2 :: body)))) rs =
      ({ rs with subs := [(realT, { sizes := [leNat e4], counts := [1] })] }, none) := by
  obtain ⟨s0, s1, s2, s3, rfl⟩ := eq_cons_of_len4 e4 he4
  obtain ⟨a, b, c, d, rfl⟩ := eq_cons_of_len4 realT ht4
  show dumpSubRecords
      (88 :: 88 :: 88 :: 88 :: s0 :: s1 :: s2 :: s3 :: a :: b :: c :: d ::
        d1 :: d2 :: body) rs = _
  have hdl : (88 :: 88 :: 88 :: 88 :: s0 :: s1 :: s2 :: s3 :: a :: b :: c :: d ::
      d1 :: d2 :: body).length = 14 + body.length := by
    simp
    omega
  have hguard : 0 + 6 < (88 :: 88 :: 88 :: 88 :: s0 :: s1 :: s2 :: s3 ::
      a :: b :: c :: d :: d1 :: d2 :: body).length := by
    rw [hdl]
    omega
  have hbr : ¬ 0 + 14 + leNat [s0, s1, s2, s3] > (88 :: 88 :: 88 :: 88 ::
      s0 :: s1 :: s2 :: s3 :: a :: b :: c :: d :: d1 :: d2 :: body).length := by
    rw [hdl]
    omega
  have hb1 : bslice (88 :: 88 :: 88 :: 88 :: s0 :: s1 :: s2 :: s3 ::
      a :: b :: c :: d :: d1 :: d2 :: body) 0 4 = xxxxTag := rfl
  have hd1 : decodeAscii xxxxTag = some xxxxTag := rfl
  have hr4 : readU 4 (88 :: 88 :: 88 :: 88 :: s0 :: s1 :: s2 :: s3 ::
      a :: b :: c :: d :: d1 :: d2 :: body) (0 + 4) =
      some (leNat [s0, s1, s2, s3]) := rfl
  have hb2 : bslice (88 :: 88 :: 88 :: 88 :: s0 :: s1 :: s2 :: s3 ::
      a :: b :: c :: d :: d1 :: d2 :: body) (0 + 8) 4 = [a, b, c, d] := rfl
  have h1 : subLoop (88 :: 88 :: 88 :: 88 :: s0 :: s1 :: s2 :: s3 :: a :: b :: c :: d ::
      d1 :: d2 :: body) (14 + body.length + 1) [] rs 0 =
      subLoop (88 :: 88 :: 88 :: 88 :: s0 :: s1 :: s2 :: s3 :: a :: b :: c :: d ::
        d1 :: d2 :: body) (14 + body.length)
        [([a, b, c, d], 1)]
        { rs with subs := addSubSize rs.subs [a, b, c, d] (leNat [s0, s1, s2, s3]) }
        (0 + 14 + leNat [s0, s1, s2, s3]) := by
    simp [subLoop, hguard, hb1, hd1, hr4, hb2, hasc, hbr]
    have hf1 : ¬ List.length body + 1 + 1 + 1 + 1 + 1 + 1 + 1 + 1 + 1 + 1 + 1 + 1 + 1 + 1 < 14 + leNat [s0, s1, s2, s3] := by
      omega
    rw [if_neg hf1]
    rfl
  have h2 : subLoop (88 :: 88 :: 88 :: 88 :: s0 :: s1 :: s2 :: s3 :: a :: b :: c :: d ::
      d1 :: d2 :: body) (14 + body.length)
      [([a, b, c, d], 1)]
      { rs with subs := addSubSize rs.subs [a, b, c, d] (leNat [s0, s1, s2, s3]) }
      (0 + 14 + leNat [s0, s1, s2, s3]) =
      ([([a, b, c, d], 1)],
        { rs with subs := addSubSize rs.subs [a, b, c, d] (leNat [s0, s1, s2, s3]) },
        none) := by
    have hgg : 14 + body.length = 13 + body.length + 1 := by omega
    rw [hgg]
    apply subLoop_stop
    rw [hdl]
    omega
  unfold dumpSubRecords
  rw [hdl, h1, h2, hsubs]
  have hstep : addSubCount [([a, b, c, d], { sizes := [leNat [s0, s1, s2, s3]], counts := [] })] [a, b, c, d] 1 = [([a, b, c, d], { sizes := [leNat [s0, s1, s2, s3]], counts := [1] })] := by
    unfold addSubCount aupsert
    rw [if_pos rfl]
    rfl
  have hac : applyCounts [([a, b, c, d], 1)] { rs with subs := addSubSize [] [a, b, c, d] (leNat [s0, s1, s2, s3]) } = { rs with subs := [([a, b, c, d], { sizes := [leNat [s0, s1, s2, s3]], counts := [1] })] } := by
    show { rs with subs := addSubCount [([a, b, c, d], { sizes := [leNat [s0, s1, s2, s3]], counts := [] })] [a, b, c, d] 1 } = _
    rw [hstep]
  exact congrArg (fun z => (z, none)) hac

theorem walkAux_record (inflate : Bytes → Option Bytes) (f : Nat) (src : Bytes)
    (pos : Nat) (stats : Stats) (endP : Nat) (ty : Bytes) (ds fl : Nat)
    (hle : pos + 24 ≤ endP)
    (htag : bslice src pos 4 ≠ grupTag)
    (hdec : decodeAscii (bslice src pos 4) = some ty)
    (hrh : recHeader src pos = some (ds, fl)) :
    dumpGRUPOrRecord inflate (f + 1) src pos stats endP =
      processRecord inflate src pos ty ds fl stats := by
  unfold dumpGRUPOrRecord
  have hp : ¬ pos + 24 > endP := by omega
  simp [walkAux, hp, htag, hdec, hrh]

/-! ### Claim theorems -/

/-- Claim C2: for every record, whatever the deleted and compressed
flags, whenever the walker finishes processing the record without an
exception the cursor ends at postHeaderPosition + dataLength — where
postHeaderPosition is the record start plus the 24-byte header and
dataLength is the declared on-disk length from the record header —
never at a position computed from the decompressed payload length. -/
theorem record_repositions_to_declared_length (inflate : Bytes → Option Bytes)
    (f : Nat) (src : Bytes) (pos : Nat) (stats : Stats) (endP : Nat)
    (s2 : Stats) (p2 : Nat)
    (hle : pos + 24 ≤ endP) (htag : bslice src pos 4 ≠ grupTag)
    (h : dumpGRUPOrRecord inflate (f + 1) src pos stats endP = (s2, p2, none)) :
    ∃ ds fl, recHeader src pos = some (ds, fl) ∧ p2 = pos + 24 + ds := by
  have hp : ¬ pos + 24 > endP := by omega
  cases hdec : decodeAscii (bslice src pos 4) with
  | none =>
    have he : dumpGRUPOrRecord inflate (f + 1) src pos stats endP =
        (stats, pos, some PyErr.unicodeError) := by
      unfold dumpGRUPOrRecord
      simp [walkAux, hp, htag, hdec]
    rw [he] at h
    simp at h
  | some ty =>
    cases hrh : recHeader src pos with
    | none =>
      have he : dumpGRUPOrRecord inflate (f + 1) src pos stats endP =
          (stats, pos, some PyErr.structError) := by
        unfold dumpGRUPOrRecord
        simp [walkAux, hp, htag, hdec, hrh]
      rw [he] at h
      simp at h
    | some dsfl =>
      rcases dsfl with ⟨ds, fl⟩
      refine ⟨ds, fl, rfl, ?_⟩
      rw [walkAux_record inflate f src pos stats endP ty ds fl hle htag hdec hrh] at h
      have hs : (processRecord inflate src pos ty ds fl stats).2.2 = none := by
        rw [h]
      have hpos := processRecord_seek inflate src pos ty ds fl stats hs
      rw [h] at hpos
      have hp2 : p2 = pos + ds + 24 := hpos
      omega

/-- Witness for C2 at a concrete record with declared size 2. -/
theorem record_repositions_to_declared_length_witness :
    ∃ ds fl, recHeader c2src 0 = some (ds, fl) ∧ 26 = 0 + 24 + ds :=
  record_repositions_to_declared_length inflNone 0 c2src 0 [] 26
    [([67, 67, 67, 67], { count := 1, compressed := 0, sizes := [2], subs := [] })]
    26 (by decide) (by decide) rfl

/-- Claim C6: a record whose flags have the deleted bit 0x20 set —
including combinations that also set the compressed bit 0x00040000 —
creates and mutates no statistics entry at all, and the cursor still
advances past the 24-byte header and the declared dataLength payload
bytes. -/
theorem deleted_record_skipped (inflate : Bytes → Option Bytes) (f : Nat)
    (src : Bytes) (pos : Nat) (stats : Stats) (endP : Nat) (ty : Bytes)
    (ds fl : Nat)
    (hle : pos + 24 ≤ endP)
    (htag : bslice src pos 4 ≠ grupTag)
    (hdec : decodeAscii (bslice src pos 4) = some ty)
    (hrh : recHeader src pos = some (ds, fl))
    (hdel : fl &&& 32 ≠ 0) :
    dumpGRUPOrRecord inflate (f + 1) src pos stats endP =
      (stats, pos + ds + 24, none) := by
  rw [walkAux_record inflate f src pos stats endP ty ds fl hle htag hdec hrh]
  unfold processRecord
  rw [if_neg hdel]

/-- Witness for C6: a record with flags 0x00040020 (deleted and
compressed both set) is skipped entirely and the cursor advances by
3 + 24 bytes. -/
theorem deleted_record_skipped_witness :
    (262176 &&& 32 ≠ 0) ∧ (262176 &&& 262144 ≠ 0) ∧
    dumpGRUPOrRecord inflNone 1 c6src 0 [] 27 = ([], 0 + 3 + 24, none) :=
  ⟨by decide, by decide,
    deleted_record_skipped inflNone 0 c6src 0 [] 27 [68, 68, 68, 68] 3 262176
      (by decide) (by decide) (by decide) (by decide) (by decide)⟩

/-- Claim C8: the walker clamps instead of failing at a region
boundary: with fewer than 24 bytes before the region end it seeks to
the region end and returns without error and without touching the
statistics, and a GRUP whose declared child region would overrun the
enclosing region end is clamped the same way, so parsing continues
with the next sibling at the outer level. -/
theorem malformed_container_clamped :
    (∀ (inflate : Bytes → Option Bytes) (f : Nat) (src : Bytes) (pos : Nat)
        (stats : Stats) (endP : Nat), pos + 24 > endP →
      dumpGRUPOrRecord inflate (f + 1) src pos stats endP = (stats, endP, none)) ∧
    (∀ (inflate : Bytes → Option Bytes) (f : Nat) (src : Bytes) (pos : Nat)
        (stats : Stats) (endP : Nat) (raw : Nat), pos + 24 ≤ endP →
      bslice src pos 4 = grupTag → grupHeader src pos = some raw →
      pos + raw > endP →
      dumpGRUPOrRecord inflate (f + 1) src pos stats endP = (stats, endP, none)) := by
  constructor
  · intro inflate f src pos stats endP hp
    unfold dumpGRUPOrRecord
    simp [walkAux, hp]
  · intro inflate f src pos stats endP raw hle hg hgh hov
    unfold dumpGRUPOrRecord
    have hp : ¬ pos + 24 > endP := by omega
    simp [walkAux, hp, hg, hgh, hov]

/-- Witness for C8: trailing padding of 3 bytes, and a GRUP declaring
a 1000-byte span inside a 24-byte region. -/
theorem malformed_container_clamped_witness :
    dumpGRUPOrRecord inflNone 3 [0, 0, 0] 0 [] 3 = ([], 3, none) ∧
    dumpGRUPOrRecord inflNone 3 c8src 0 [] 24 = ([], 24, none) :=
  ⟨malformed_container_clamped.1 inflNone 2 [0, 0, 0] 0 [] 3 (by decide),
   malformed_container_clamped.2 inflNone 2 c8src 0 [] 24 1000
     (by decide) (by decide) (by decide) (by decide)⟩

/-- Claim C1 counterexample: in a two-record file whose first record is
compressed with invalid zlib data, the inflation failure aborts the
whole walk — the result carries the zlib exception, the failing record
has a count but no size sample (not a zero-length one), and the second
record `BBBB` is never processed — contradicting the claim that the
error affects that record only and the walk continues. -/
theorem zlib_failure_not_recovered_cex :
    dumpPluginWalk inflNone 5 c1src 0 [] =
      ([([65, 65, 65, 65], { count := 1, compressed := 0, sizes := [], subs := [] })],
        0, some PyErr.zlibError) ∧
    alookup (dumpPluginWalk inflNone 5 c1src 0 []).1 [66, 66, 66, 66] = none := by
  exact ⟨rfl, rfl⟩

/-- Claim C1 (amended): when zlib inflation of a compressed record's
payload fails, the exception propagates out of the walker and aborts
the remainder of the file's walk (it is only caught by the blanket
handler of dumpPlugin, line 190): the failing record's count has been
incremented but no size sample or subrecord is recorded, the cursor is
not repositioned, and no later record of the file is visited. -/
theorem zlib_failure_aborts_walk (inflate : Bytes → Option Bytes) (g : Nat)
    (src : Bytes) (pos : Nat) (stats : Stats) (ty : Bytes) (ds fl : Nat)
    (hlt : pos < src.length)
    (hle : pos + 24 ≤ src.length)
    (htag : bslice src pos 4 ≠ grupTag)
    (hdec : decodeAscii (bslice src pos 4) = some ty)
    (hrh : recHeader src pos = some (ds, fl))
    (hdel : fl &&& 32 = 0) (hcmp : fl &&& 262144 ≠ 0)
    (hlen : ¬ (bslice src (pos + 24) ds).length < 4)
    (hinf : inflate ((bslice src (pos + 24) ds).drop 4) = none) :
    dumpPluginWalk inflate (g + 2) src pos stats =
      (aset stats ty (bumpCount (baseOf stats ty)), pos, some PyErr.zlibError) := by
  have hrec : processRecord inflate src pos ty ds fl stats =
      (aset stats ty (bumpCount (baseOf stats ty)), pos, some PyErr.zlibError) := by
    unfold processRecord
    rw [if_pos hdel, if_neg hcmp, if_neg hlen]
    simp only [hinf]
  have hw : walkAux inflate (g + 1) false src pos stats src.length =
      processRecord inflate src pos ty ds fl stats :=
    walkAux_record inflate g src pos stats src.length ty ds fl hle htag hdec hrh
  have hloop : dumpPluginWalk inflate (g + 2) src pos stats =
      (match walkAux inflate (g + 1) false src pos stats src.length with
       | (s2, p2, none) => dumpPluginWalk inflate (g + 1) src p2 s2
       | (s2, p2, some e) => (s2, p2, some e)) := by
    simp [dumpPluginWalk, hlt]
  rw [hloop, hw, hrec]

/-- Witness for the amended C1 at the concrete two-record file. -/
theorem zlib_failure_aborts_walk_witness :
    dumpPluginWalk inflNone 5 c1src 0 [] =
      (aset [] [65, 65, 65, 65] (bumpCount (baseOf [] [65, 65, 65, 65])),
        0, some PyErr.zlibError) :=
  zlib_failure_aborts_walk inflNone 3 c1src 0 [] [65, 65, 65, 65] 6 262144
    (by decide) (by decide) (by decide) (by decide) (by decide) (by decide)
    (by decide) (by decide) rfl

/-- Claim C3 counterexample: a record whose 4-byte type tag contains
bytes of 128 or more raises a UnicodeDecodeError in
`grup.decode('ascii')` — an error caused purely by the value of the
tag, contradicting the claim that no tag value ever raises. -/
theorem nonascii_tag_raises_cex :
    dumpGRUPOrRecord inflNone 1 c3src 0 [] 24 = ([], 0, some PyErr.unicodeError) := by
  rfl

/-- Claim C3 (amended): tags are never validated against a known set —
every 4-byte tag whose bytes are ASCII (below 128) is accepted and
used as a statistics key, both in record-tag position and in
subrecord-tag position; but a tag byte of 128 or more raises a
(fatal) decode error. -/
theorem ascii_tag_accepted :
    (∀ t : Bytes, t.length = 4 → decodeAscii t = some t → t ≠ grupTag →
      dumpGRUPOrRecord inflNone 1 (t ++ List.replicate 20 0) 0 [] 24 =
        ([(t, { count := 1, compressed := 0, sizes := [0], subs := [] })], 24, none)) ∧
    (∀ t : Bytes, t.length = 4 → decodeAscii t = some t → t ≠ xxxxTag →
      dumpSubRecords (t ++ ([1, 0] ++ [9])) emptyRec =
        ({ emptyRec with subs := [(t, { sizes := [1], counts := [1] })] }, none)) := by
  constructor
  · intro t hlen hdec hne
    obtain ⟨a, b, c, d, rfl⟩ := eq_cons_of_len4 t hlen
    show dumpGRUPOrRecord inflNone 1 (a :: b :: c :: d :: List.replicate 20 0)
        0 [] 24 = _
    have htag : bslice (a :: b :: c :: d :: List.replicate 20 0) 0 4 =
        [a, b, c, d] := rfl
    have htagne : bslice (a :: b :: c :: d :: List.replicate 20 0) 0 4 ≠ grupTag := by
      rw [htag]
      exact hne
    have hdec2 : decodeAscii (bslice (a :: b :: c :: d :: List.replicate 20 0) 0 4) =
        some [a, b, c, d] := by
      rw [htag]
      exact hdec
    have hrh : recHeader (a :: b :: c :: d :: List.replicate 20 0) 0 =
        some (0, 0) := rfl
    rw [walkAux_record inflNone 0 (a :: b :: c :: d :: List.replicate 20 0) 0 [] 24
      [a, b, c, d] 0 0 (by omega) htagne hdec2 hrh]
    rfl
  · intro t hlen hdec hne
    have h := dumpSubRecords_one_normal t [1, 0] [9] emptyRec hlen (by decide)
      hdec hne (by decide) (by decide) rfl
    simpa [leNat] using h

/-- Witness for the amended C3 at the tag `AAAA`. -/
theorem ascii_tag_accepted_witness :
    dumpGRUPOrRecord inflNone 1 ([65, 65, 65, 65] ++ List.replicate 20 0) 0 [] 24 =
      ([([65, 65, 65, 65], { count := 1, compressed := 0, sizes := [0], subs := [] })],
        24, none) ∧
    dumpSubRecords ([65, 65, 65, 65] ++ ([1, 0] ++ [9])) emptyRec =
      ({ emptyRec with subs := [([65, 65, 65, 65], { sizes := [1], counts := [1] })] },
        none) :=
  ⟨ascii_tag_accepted.1 [65, 65, 65, 65] (by decide) (by decide) (by decide),
   ascii_tag_accepted.2 [65, 65, 65, 65] (by decide) (by decide) (by decide)⟩

/-- Claim C4 counterexample: a payload that is exactly a 6-byte
zero-length subrecord header (`AAAA` followed by a 2-byte size of 0)
is not parsed as one subrecord — the guard `pos < len(data) - 6` is
strict, so the loop never runs and no entry is created — contradicting
the claim that such a trailing header is still parsed. -/
theorem six_byte_header_not_parsed_cex :
    dumpSubRecords [65, 65, 65, 65, 0, 0] emptyRec = (emptyRec, none) := by
  rfl

/-- Claim C4 (amended): the subrecord loop stops as soon as 6 or fewer
bytes remain — strictly more than 6 bytes must remain for another
iteration, so a trailing exactly-6-byte zero-length header is not
parsed — and a normal-form header whose declared size would read past
the payload end silently stops the loop without error and without
creating an entry. -/
theorem subrecord_loop_stop_conditions :
    (∀ (data : Bytes) (rs : RecStats), data.length ≤ 6 →
      dumpSubRecords data rs = (rs, none)) ∧
    (∀ (data : Bytes) (f : Nat) (counts : List (Bytes × Nat)) (rs : RecStats)
        (pos : Nat) (t0 : Bytes) (subSize : Nat),
      decodeAscii (bslice data pos 4) = some t0 → t0 ≠ xxxxTag →
      readU 2 data (pos + 4) = some subSize →
      pos + 6 + subSize > data.length →
      subLoop data (f + 1) counts rs pos = (counts, rs, none)) := by
  constructor
  · intro data rs hle
    unfold dumpSubRecords
    rw [subLoop_stop data data.length [] rs 0 (by omega)]
    rfl
  · intro data f counts rs pos t0 subSize hdec hne hr hov
    by_cases hguard : pos + 6 < data.length
    · simp [subLoop, hguard, hdec, hne, hr, hov]
    · exact subLoop_stop data f counts rs pos hguard

/-- Witness for the amended C4: a 3-byte payload parses nothing, and a
7-byte payload whose declared size 9 overruns stops silently. -/
theorem subrecord_loop_stop_conditions_witness :
    dumpSubRecords [1, 2, 3] emptyRec = (emptyRec, none) ∧
    subLoop [66, 66, 66, 66, 9, 0, 1] 1 [] emptyRec 0 = ([], emptyRec, none) :=
  ⟨subrecord_loop_stop_conditions.1 [1, 2, 3] emptyRec (by decide),
   subrecord_loop_stop_conditions.2 [66, 66, 66, 66, 9, 0, 1] 0 [] emptyRec 0
     [66, 66, 66, 66] 9 (by decide) (by decide) (by decide) (by decide)⟩

/-- Claim C5: for a compressed record (flag 0x00040000, deleted bit
clear) whose data is a 4-byte uncompressed-size field followed by a
zlib payload inflating to `payload`, and whose tag was not seen
before, the walker stores exactly one entry for the tag with
compressed count 1, record count 1 and size sample equal to the
decompressed length, and the subrecord parser runs on exactly the
decompressed payload; the walker's exception, if any, is the
subrecord parser's. -/
theorem compressed_roundtrip (inflate : Bytes → Option Bytes) (f : Nat)
    (src : Bytes) (pos : Nat) (stats : Stats) (endP : Nat) (ty : Bytes)
    (ds fl : Nat) (payload : Bytes)
    (hle : pos + 24 ≤ endP)
    (htag : bslice src pos 4 ≠ grupTag)
    (hdec : decodeAscii (bslice src pos 4) = some ty)
    (hrh : recHeader src pos = some (ds, fl))
    (hnew : alookup stats ty = none)
    (hdel : fl &&& 32 = 0) (hcmp : fl &&& 262144 ≠ 0)
    (hlen : ¬ (bslice src (pos + 24) ds).length < 4)
    (hinf : inflate ((bslice src (pos + 24) ds).drop 4) = some payload) :
    (dumpGRUPOrRecord inflate (f + 1) src pos stats endP).1 =
      aset stats ty (dumpSubRecords payload
        { count := 1, compressed := 1, sizes := [payload.length], subs := [] }).1 ∧
    (dumpGRUPOrRecord inflate (f + 1) src pos stats endP).2.2 =
      (dumpSubRecords payload
        { count := 1, compressed := 1, sizes := [payload.length], subs := [] }).2 ∧
    (dumpSubRecords payload
      { count := 1, compressed := 1, sizes := [payload.length], subs := [] }).1.compressed = 1 ∧
    (dumpSubRecords payload
      { count := 1, compressed := 1, sizes := [payload.length], subs := [] }).1.sizes =
        [payload.length] ∧
    (dumpSubRecords payload
      { count := 1, compressed := 1, sizes := [payload.length], subs := [] }).1.count = 1 := by
  have hb : baseOf stats ty = emptyRec := by
    simp [baseOf, hnew]
  rw [walkAux_record inflate f src pos stats endP ty ds fl hle htag hdec hrh]
  unfold processRecord
  rw [if_pos hdel, if_neg hcmp, if_neg hlen]
  simp only [hinf]
  rw [hb]
  obtain ⟨e1, e2, e3, _, _⟩ := dumpSubRecords_spec payload
    { count := 1, compressed := 1, sizes := [payload.length], subs := [] }
  refine ⟨?_, ?_, ?_, ?_, ?_⟩
  · rw [finishRecord_fst]
    rfl
  · rw [finishRecord_err]
    rfl
  · exact e2
  · exact e3
  · exact e1

/-- Witness for C5 at a concrete compressed record whose payload
inflates to seven zero bytes. -/
theorem compressed_roundtrip_witness :
    (dumpGRUPOrRecord inflC5 1 c5src 0 [] 30).1 =
      aset [] [65, 65, 65, 65] (dumpSubRecords [0, 0, 0, 0, 0, 0, 0]
        { count := 1, compressed := 1, sizes := [7], subs := [] }).1 ∧
    (dumpGRUPOrRecord inflC5 1 c5src 0 [] 30).2.2 =
      (dumpSubRecords [0, 0, 0, 0, 0, 0, 0]
        { count := 1, compressed := 1, sizes := [7], subs := [] }).2 ∧
    (dumpSubRecords [0, 0, 0, 0, 0, 0, 0]
      { count := 1, compressed := 1, sizes := [7], subs := [] }).1.compressed = 1 ∧
    (dumpSubRecords [0, 0, 0, 0, 0, 0, 0]
      { count := 1, compressed := 1, sizes := [7], subs := [] }).1.sizes = [7] ∧
    (dumpSubRecords [0, 0, 0, 0, 0, 0, 0]
      { count := 1, compressed := 1, sizes := [7], subs := [] }).1.count = 1 :=
  compressed_roundtrip inflC5 0 c5src 0 [] 30 [65, 65, 65, 65] 6 262144
    [0, 0, 0, 0, 0, 0, 0] (by decide) (by decide) (by decide) (by decide)
    (by decide) (by decide) (by decide) (by decide) rfl

/-- Claim C7: a payload consisting of the escape tag `XXXX`, a 4-byte
size, the real 4-byte type tag, 2 discarded bytes, and that many
payload bytes is reported as exactly one subrecord, keyed by the real
tag (not the escape tag), with the 4-byte size as its size sample and
exactly one occurrence-count sample of 1. -/
theorem extended_subrecord_real_tag (e4 realT : Bytes) (d1 d2 : Nat)
    (body : Bytes) (rs : RecStats)
    (he4 : e4.length = 4) (ht4 : realT.length = 4)
    (hasc : decodeAscii realT = some realT)
    (hlen : body.length = leNat e4)
    (hsubs : rs.subs = []) :
    dumpSubRecords (xxxxTag ++ (e4 ++ (realT ++ (d1 :: d2 :: body)))) rs =
      ({ rs with subs := [(realT, { sizes := [leNat e4], counts := [1] })] }, none) :=
  dumpSubRecords_one_escape e4 realT d1 d2 body rs he4 ht4 hasc hlen hsubs

/-- Witness for C7: escape tag, size 3, real tag `DATA`, two discarded
bytes, and a 3-byte payload. -/
theorem extended_subrecord_real_tag_witness :
    dumpSubRecords (xxxxTag ++ ([3, 0, 0, 0] ++ ([68, 65, 84, 65] ++
        (7 :: 7 :: [1, 2, 3])))) emptyRec =
      ({ emptyRec with
          subs := [([68, 65, 84, 65], { sizes := [leNat [3, 0, 0, 0]], counts := [1] })] },
        none) :=
  extended_subrecord_real_tag [3, 0, 0, 0] [68, 65, 84, 65] 7 7 [1, 2, 3] emptyRec
    (by decide) (by decide) (by decide) (by decide) rfl

/-- Claim C9 counterexample: a record declaring 100 data bytes in a
30-byte file is processed without any error — the payload read of line
316 silently returns the 6 available bytes, the recorded size sample
is 6, and the cursor is seeked past the end of the file — so
`readBytes(n)` does not fail with a TruncatedRead when fewer than `n`
bytes remain. -/
theorem silent_short_read_cex :
    (bslice c9src 24 100).length = 6 ∧
    dumpGRUPOrRecord inflNone 1 c9src 0 [] 30 =
      ([([65, 65, 65, 65], { count := 1, compressed := 0, sizes := [6], subs := [] })],
        124, none) := by
  exact ⟨rfl, rfl⟩

/-- Claim C9 (amended): the fixed-width readers are all-or-nothing:
`readU n src p` (struct.unpack through `read(n)`) yields a value
exactly when at least `n` bytes remain before the end of the source
and raises struct.error otherwise; but the raw payload read
`read(n)` — `bslice` — silently returns `min n (remaining)` bytes, so
a record payload read near the end of the file yields fewer bytes than
requested without any error. -/
theorem reader_contracts :
    (∀ (n : Nat) (src : Bytes) (p : Nat),
      readU n src p =
        if n ≤ src.length - p then some (leNat (bslice src p n)) else none) ∧
    (∀ (n : Nat) (src : Bytes) (p : Nat),
      (bslice src p n).length = min n (src.length - p)) :=
  ⟨fun n src p => readU_eq n src p, fun n src p => bslice_length src p n⟩

/-- Claim C10: after a complete error-free walk from an empty
statistics dict, every per-record-tag entry has exactly as many size
samples as its count, a compressed count of at most its count, and
every subrecord entry under it has at most count occurrence samples;
and entries, once present, survive every walker call — they are
created on first sight and never removed. -/
theorem walk_statistics_invariants :
    (∀ (inflate : Bytes → Option Bytes) (fuel : Nat) (src : Bytes)
        (st2 : Stats) (p2 : Nat),
      dumpPluginWalk inflate fuel src 0 [] = (st2, p2, none) →
      ∀ p ∈ st2, (Prod.snd p).sizes.length = (Prod.snd p).count ∧
        (Prod.snd p).compressed ≤ (Prod.snd p).count ∧
        ∀ q ∈ (Prod.snd p).subs, (Prod.snd q).counts.length ≤ (Prod.snd p).count) ∧
    (∀ (inflate : Bytes → Option Bytes) (fuel : Nat) (src : Bytes) (pos : Nat)
        (stats : Stats) (endP : Nat) (t : Bytes) (rs : RecStats),
      alookup stats t = some rs →
      ∃ rs2, alookup (dumpGRUPOrRecord inflate fuel src pos stats endP).1 t =
          some rs2 ∧
        ∀ u, (alookup rs.subs u).isSome → (alookup rs2.subs u).isSome) := by
  constructor
  · intro inflate fuel src st2 p2 h
    obtain ⟨_, g⟩ := dumpPluginWalk_spec inflate fuel src 0 []
    rw [h] at g
    have hg : GoodStats st2 := g rfl (fun p hp => absurd hp (List.not_mem_nil p))
    intro p hp
    exact hg p hp
  · intro inflate fuel src pos stats endP t rs hrs
    obtain ⟨m, _⟩ := walkAux_spec inflate fuel false src pos stats endP
    exact m t rs hrs

/-- Witness for C10 at a one-record file and at a nonempty initial
dict. -/
theorem walk_statistics_invariants_witness :
    (∀ p ∈ [([67, 67, 67, 67],
        RecStats.mk 1 0 [2] ([] : List (Bytes × SubStats)))],
      (Prod.snd p).sizes.length = (Prod.snd p).count ∧
      (Prod.snd p).compressed ≤ (Prod.snd p).count ∧
      ∀ q ∈ (Prod.snd p).subs, (Prod.snd q).counts.length ≤ (Prod.snd p).count) ∧
    (∃ rs2, alookup (dumpGRUPOrRecord inflNone 1 c2src 0
        [([67, 67, 67, 67], RecStats.mk 1 0 [2] [])] 26).1 [67, 67, 67, 67] =
          some rs2 ∧
      ∀ u, (alookup (RecStats.mk 1 0 [2] ([] : List (Bytes × SubStats))).subs u).isSome →
        (alookup rs2.subs u).isSome) :=
  ⟨walk_statistics_invariants.1 inflNone 3 c2src
      [([67, 67, 67, 67], RecStats.mk 1 0 [2] [])] 26 rfl,
   walk_statistics_invariants.2 inflNone 1 c2src 0
      [([67, 67, 67, 67], RecStats.mk 1 0 [2] [])] 26 [67, 67, 67, 67]
      (RecStats.mk 1 0 [2] []) rfl⟩
